import Mathlib

/-!
Verification of the sliding-puzzle module (`Sliding_puzzle.py`).

A puzzle is embedded as a `List Char` (the Python string, row-major).
The five pure functions of the module — `rows_from_puzzle`, `is_solved`,
`is_legal_move`, `puzzle_with_move`, `space_puzzle` — are translated
below.  Python's fallible `str.index` is embedded as an `Option`-valued
lookup, so the two functions that perform tile lookups return `Option`
results (`none` models the uncaught `ValueError`).
-/

namespace SlidingPuzzle

/-- Largest `j ≤ k` with `j * j ≤ n` (0 when there is none). -/
def intSqrtAux (n : Nat) : Nat → Nat
  | 0 => 0
  | k + 1 => if (k + 1) * (k + 1) ≤ n then k + 1 else intSqrtAux n k

/-- Integer square root, embedding Python's `int(len ** 0.5)` and
`int(math.sqrt(len))`, both of which are exact on the perfect-square
lengths the module works with. -/
def intSqrt (n : Nat) : Nat := intSqrtAux n n

/-- A puzzle state: the Python string, as a list of characters. -/
abbrev Puzzle := List Char

/-- The characters the data model allows in a puzzle state:
digits `'0'`-`'9'`, capitals `'A'`-`'Z'`, and the blank marker `'-'`. -/
def isPuzzleChar (c : Char) : Prop :=
  ('0' ≤ c ∧ c ≤ '9') ∨ ('A' ≤ c ∧ c ≤ 'Z') ∨ c = '-'

instance (c : Char) : Decidable (isPuzzleChar c) := by
  unfold isPuzzleChar
  infer_instance

/-- Number of occurrences of `c` in `l` (Python `str.count`). -/
def countC (c : Char) : List Char → Nat
  | [] => 0
  | x :: xs => (if x = c then 1 else 0) + countC c xs

/-- A valid puzzle state: length a perfect square in {4, 9, 16, 25, 36},
exactly one blank marker, and every character drawn from the allowed
alphabet. -/
def ValidPuzzle (p : Puzzle) : Prop :=
  (p.length = 4 ∨ p.length = 9 ∨ p.length = 16 ∨ p.length = 25 ∨ p.length = 36) ∧
  countC '-' p = 1 ∧ ∀ c ∈ p, isPuzzleChar c

instance (p : Puzzle) : Decidable (ValidPuzzle p) := by
  unfold ValidPuzzle
  infer_instance

/-- Index of the first occurrence of `c` in the list
(`l.length` when absent). -/
def firstIdx (c : Char) : List Char → Nat
  | [] => 0
  | x :: xs => if x = c then 0 else firstIdx c xs + 1

/-- Python's `str.index`: first index of `c`, failing (`none`, the
`ValueError`) when `c` is absent. -/
def strIndex (p : Puzzle) (c : Char) : Option Nat :=
  if c ∈ p then some (firstIdx c p) else none

/-- `size = int(math.sqrt(len(puzzle)))` = `int(len(puzzle) ** 0.5)`. -/
def boardSize (p : Puzzle) : Nat := intSqrt p.length

/-- The row of flat index `i`: `i // size`. -/
def rowOf (p : Puzzle) (i : Nat) : Nat := i / boardSize p

/-- The column of flat index `i`: `i % size`. -/
def colOf (p : Puzzle) (i : Nat) : Nat := i % boardSize p

/-- `[puzzle[i:i+size] for i in range(0, len(puzzle), size)]`:
the consecutive `size`-character slices of the string.  `range(0, n, size)`
has `⌈n / size⌉` elements `0, size, 2*size, …`, and `puzzle[i:i+size]`
is drop-`i`-take-`size`. -/
def chunkList (size : Nat) (l : List Char) : List (List Char) :=
  (List.range' 0 ((l.length + size - 1) / size) size).map
    (fun i => (l.drop i).take size)

/-- Python's `sep.join(pieces)`: pieces concatenated with `sep` between
consecutive pieces, no trailing separator. -/
def joinStr (sep : List Char) : List (List Char) → List Char
  | [] => []
  | [x] => x
  | x :: y :: ys => x ++ sep ++ joinStr sep (y :: ys)

/-- `rows_from_puzzle`: the `size`-character rows joined by `'\n'`. -/
def rows_from_puzzle (p : Puzzle) : List Char :=
  joinStr ['\n'] (chunkList (boardSize p) p)

/-- Insert `c` into a list just before the first element it is `≤`. -/
def insertChar (c : Char) : List Char → List Char
  | [] => [c]
  | x :: xs => if c ≤ x then c :: x :: xs else x :: insertChar c xs

/-- Insertion sort by code point.  Embeds Python's `sorted`: both produce
the unique nondecreasing arrangement of the character multiset. -/
def sortChars : List Char → List Char
  | [] => []
  | x :: xs => insertChar x (sortChars xs)

/-- `puzzle.replace('-', '')`: the non-blank symbols, in order. -/
def nonBlank (p : Puzzle) : List Char := p.filter (fun c => c != '-')

/-- `is_solved`: the state equals the sorted non-blank symbols followed
by the blank, or the blank followed by them (`'-' + sorted_puzzle[:-1]`). -/
def is_solved (p : Puzzle) : Bool :=
  let sorted_puzzle := sortChars (nonBlank p) ++ ['-']
  p == sorted_puzzle || p == '-' :: sorted_puzzle.dropLast

/-- `is_legal_move`: `False` for the blank itself; otherwise look up both
indices and compare row/column distances.  `none` models the `ValueError`
of a failed lookup. -/
def is_legal_move (p : Puzzle) (tile_to_move : Char) : Option Bool :=
  if tile_to_move = '-' then some false
  else
    match strIndex p '-', strIndex p tile_to_move with
    | some empty_idx, some tile_idx =>
      let size := boardSize p
      let row_diff := ((tile_idx / size : Nat) - (empty_idx / size : Nat) : Int).natAbs
      let col_diff := ((tile_idx % size : Nat) - (empty_idx % size : Nat) : Int).natAbs
      some ((row_diff == 1 && col_diff == 0) || (row_diff == 0 && col_diff == 1))
    | _, _ => none

/-- `puzzle_with_move`: return the input for the blank; otherwise swap
the characters at the blank's index and the tile's first index.  `none`
models the `ValueError` of a failed lookup. -/
def puzzle_with_move (p : Puzzle) (tile_to_move : Char) : Option Puzzle :=
  if tile_to_move = '-' then some p
  else
    match strIndex p '-', strIndex p tile_to_move with
    | some empty_idx, some tile_idx =>
      some ((p.set empty_idx (p.getD tile_idx ' ')).set tile_idx (p.getD empty_idx ' '))
    | _, _ => none

/-- Python's `" ".join(s)` over the characters of a string. -/
def interChars (sep : Char) : List Char → List Char
  | [] => []
  | [c] => [c]
  | c :: d :: cs => c :: sep :: interChars sep (d :: cs)

/-- `space_puzzle`: `" " + " ".join(rows_from_puzzle(puzzle))`. -/
def space_puzzle (p : Puzzle) : List Char :=
  ' ' :: interChars ' ' (rows_from_puzzle p)

/-- A row with a single space inserted before every symbol. -/
def spacedRow (r : List Char) : List Char :=
  (r.map (fun c => [' ', c])).flatten

/-- Modelled from the spec's words for the spaced rendering: a single
space before every symbol of every row, an extra leading space prefixed
to the whole first line, rows newline-separated. -/
def spec_spaced (p : Puzzle) : List Char :=
  match (chunkList (boardSize p) p).map spacedRow with
  | [] => []
  | r :: rs => joinStr ['\n'] ((' ' :: r) :: rs)

/-- The rendering `space_puzzle` actually produces: each row spaced with
a single space before every symbol, rows joined by a space followed by a
newline (so every line but the last carries a trailing space), and no
second leading space on the first line. -/
def amendedSpaced (p : Puzzle) : List Char :=
  joinStr [' ', '\n'] ((chunkList (boardSize p) p).map spacedRow)

/-- Orthogonal adjacency of two flat indices, as the spec words it:
rows differ by exactly one with the same column, or columns differ by
exactly one with the same row — never diagonal, never the same cell. -/
def orthAdjacent (p : Puzzle) (i j : Nat) : Prop :=
  ((rowOf p i = rowOf p j + 1 ∨ rowOf p j = rowOf p i + 1) ∧ colOf p i = colOf p j) ∨
  ((colOf p i = colOf p j + 1 ∨ colOf p j = colOf p i + 1) ∧ rowOf p i = rowOf p j)

instance (p : Puzzle) (i j : Nat) : Decidable (orthAdjacent p i j) := by
  unfold orthAdjacent
  infer_instance

/-! ### Helper lemmas: list access, first index, counting, setting -/

lemma getD_eq_of_lt (l : List Char) (d : Char) :
    ∀ j, j < l.length → ∀ hj : j < l.length, l.getD j d = l.get ⟨j, hj⟩ := by
  induction l with
  | nil => intro j hj; simp at hj
  | cons x xs ih =>
    intro j hj hj2
    cases j with
    | zero => rfl
    | succ m =>
      simp only [List.length_cons] at hj
      exact ih m (by omega) (by omega)

lemma getD_mem (l : List Char) (d : Char) (j : Nat) (hj : j < l.length) :
    l.getD j d ∈ l := by
  rw [getD_eq_of_lt l d j hj hj]
  exact List.get_mem l j hj

lemma firstIdx_lt_length (c : Char) (l : List Char) (h : c ∈ l) :
    firstIdx c l < l.length := by
  induction l with
  | nil => simp at h
  | cons x xs ih =>
    simp only [firstIdx, List.length_cons]
    by_cases hx : x = c
    · simp [hx]
    · simp only [if_neg hx]
      have : c ∈ xs := by
        rcases List.mem_cons.mp h with h1 | h1
        · exact absurd h1.symm hx
        · exact h1
      have := ih this
      omega

lemma getD_firstIdx (c : Char) (l : List Char) (h : c ∈ l) (d : Char) :
    l.getD (firstIdx c l) d = c := by
  induction l with
  | nil => simp at h
  | cons x xs ih =>
    simp only [firstIdx]
    by_cases hx : x = c
    · simp [hx]
    · simp only [if_neg hx, List.getD_cons_succ]
      have : c ∈ xs := by
        rcases List.mem_cons.mp h with h1 | h1
        · exact absurd h1.symm hx
        · exact h1
      exact ih this

lemma getD_ne_of_lt_firstIdx (c : Char) (l : List Char) (d : Char) :
    ∀ j, j < firstIdx c l → j < l.length → l.getD j d ≠ c := by
  induction l with
  | nil => intro j hj hl; simp at hl
  | cons x xs ih =>
    intro j hj hl
    simp only [firstIdx] at hj
    by_cases hx : x = c
    · simp [hx] at hj
    · simp only [if_neg hx] at hj
      cases j with
      | zero => simpa using hx
      | succ m =>
        simp only [List.getD_cons_succ]
        simp only [List.length_cons] at hl
        exact ih m (by omega) (by omega)

lemma firstIdx_eq_of (c : Char) (l : List Char) (i : Nat) (hi : i < l.length)
    (hc : l.getD i ' ' = c) (hb : ∀ j, j < i → l.getD j ' ' ≠ c) :
    firstIdx c l = i := by
  induction l generalizing i with
  | nil => simp at hi
  | cons x xs ih =>
    cases i with
    | zero =>
      simp only [List.getD_cons_zero] at hc
      simp [firstIdx, hc]
    | succ m =>
      have hx : x ≠ c := by
        have := hb 0 (by omega)
        simpa using this
      simp only [firstIdx, if_neg hx]
      have : firstIdx c xs = m := by
        apply ih m
        · simp only [List.length_cons] at hi; omega
        · simpa using hc
        · intro j hj
          have := hb (j + 1) (by omega)
          simpa using this
      omega

lemma countC_pos_iff (c : Char) (l : List Char) : 0 < countC c l ↔ c ∈ l := by
  induction l with
  | nil => simp [countC]
  | cons x xs ih =>
    simp only [countC, List.mem_cons]
    by_cases hx : x = c
    · simp [hx]
    · simp only [if_neg hx]
      constructor
      · intro h
        exact Or.inr (ih.mp (by omega))
      · intro h
        rcases h with h | h
        · exact absurd h.symm hx
        · have := ih.mpr h; omega

lemma two_le_countC (c : Char) (l : List Char) :
    ∀ i j, i < j → j < l.length → l.getD i ' ' = c → l.getD j ' ' = c →
    2 ≤ countC c l := by
  induction l with
  | nil => intro i j hij hj; simp at hj
  | cons x xs ih =>
    intro i j hij hj hgi hgj
    simp only [List.length_cons] at hj
    cases i with
    | zero =>
      simp only [List.getD_cons_zero] at hgi
      cases j with
      | zero => omega
      | succ m =>
        simp only [List.getD_cons_succ] at hgj
        have hmem : c ∈ xs := by
          rw [← hgj]; exact getD_mem xs ' ' m (by omega)
        have := (countC_pos_iff c xs).mpr hmem
        simp [countC, hgi]
        omega
    | succ n =>
      cases j with
      | zero => omega
      | succ m =>
        simp only [List.getD_cons_succ] at hgi hgj
        have := ih n m (by omega) (by omega) hgi hgj
        simp only [countC]
        omega

lemma countC_one_unique (c : Char) (l : List Char) (h1 : countC c l = 1)
    (i j : Nat) (hi : i < l.length) (hj : j < l.length)
    (hgi : l.getD i ' ' = c) (hgj : l.getD j ' ' = c) : i = j := by
  rcases Nat.lt_trichotomy i j with h | h | h
  · have := two_le_countC c l i j h hj hgi hgj; omega
  · exact h
  · have := two_le_countC c l j i h hi hgj hgi; omega

lemma getD_set_self (l : List Char) (a d : Char) :
    ∀ i, i < l.length → (l.set i a).getD i d = a := by
  induction l with
  | nil => intro i hi; simp at hi
  | cons x xs ih =>
    intro i hi
    cases i with
    | zero => rfl
    | succ m =>
      simp only [List.set_cons_succ, List.getD_cons_succ]
      simp only [List.length_cons] at hi
      exact ih m (by omega)

lemma getD_set_ne (l : List Char) (a d : Char) :
    ∀ i j, i ≠ j → (l.set i a).getD j d = l.getD j d := by
  induction l with
  | nil => intro i j hij; simp
  | cons x xs ih =>
    intro i j hij
    cases i with
    | zero =>
      cases j with
      | zero => omega
      | succ m => rfl
    | succ n =>
      cases j with
      | zero => rfl
      | succ m =>
        simp only [List.set_cons_succ, List.getD_cons_succ]
        exact ih n m (by omega)

lemma list_ext_getD (l r : List Char) (hlen : l.length = r.length)
    (h : ∀ j, j < l.length → l.getD j ' ' = r.getD j ' ') : l = r := by
  induction l generalizing r with
  | nil =>
    cases r with
    | nil => rfl
    | cons y ys => simp at hlen
  | cons x xs ih =>
    cases r with
    | nil => simp at hlen
    | cons y ys =>
      have hx : x = y := h 0 (by simp)
      have : xs = ys := by
        apply ih ys
        · simpa using hlen
        · intro j hj
          have := h (j + 1) (by simp only [List.length_cons]; omega)
          simpa using this
      rw [hx, this]

lemma natAbs_sub_one_iff (a b : Nat) :
    ((a : Int) - (b : Int)).natAbs = 1 ↔ (a = b + 1 ∨ b = a + 1) := by omega

lemma natAbs_sub_zero_iff (a b : Nat) :
    ((a : Int) - (b : Int)).natAbs = 0 ↔ a = b := by omega

/-! ### Helper lemmas: sorting, valid states, lookup, swap -/

lemma mem_insertChar (a b : Char) (l : List Char) :
    b ∈ insertChar a l ↔ b = a ∨ b ∈ l := by
  induction l with
  | nil => simp [insertChar]
  | cons x xs ih =>
    simp only [insertChar]
    by_cases hx : a ≤ x
    · simp [if_pos hx]
    · simp only [if_neg hx, List.mem_cons, ih]
      tauto

lemma mem_sortChars (b : Char) (l : List Char) : b ∈ sortChars l ↔ b ∈ l := by
  induction l with
  | nil => simp [sortChars]
  | cons x xs ih =>
    simp only [sortChars, mem_insertChar, List.mem_cons, ih]

lemma blank_not_mem_sorted (p : Puzzle) : '-' ∉ sortChars (nonBlank p) := by
  intro h
  rw [mem_sortChars] at h
  rcases List.mem_filter.mp h with ⟨_, h2⟩
  simp at h2

lemma blank_mem_of_valid (p : Puzzle) (h : ValidPuzzle p) : '-' ∈ p := by
  have := h.2.1
  exact (countC_pos_iff '-' p).mp (by omega)

lemma valid_board (p : Puzzle) (h : ValidPuzzle p) :
    ∃ N, (N = 2 ∨ N = 3 ∨ N = 4 ∨ N = 5 ∨ N = 6) ∧
      p.length = N * N ∧ boardSize p = N := by
  rcases h.1 with hl | hl | hl | hl | hl
  · exact ⟨2, by omega, by omega, by simp only [boardSize, hl]; decide⟩
  · exact ⟨3, by omega, by omega, by simp only [boardSize, hl]; decide⟩
  · exact ⟨4, by omega, by omega, by simp only [boardSize, hl]; decide⟩
  · exact ⟨5, by omega, by omega, by simp only [boardSize, hl]; decide⟩
  · exact ⟨6, by omega, by omega, by simp only [boardSize, hl]; decide⟩

lemma strIndex_of_mem (p : Puzzle) (c : Char) (h : c ∈ p) :
    strIndex p c = some (firstIdx c p) := by
  simp [strIndex, h]

lemma strIndex_of_not_mem (p : Puzzle) (c : Char) (h : c ∉ p) :
    strIndex p c = none := by
  simp [strIndex, h]

lemma legal_iff_adj (p : Puzzle) (c : Char) (hb : '-' ∈ p) (hm : c ∈ p)
    (hc : c ≠ '-') :
    is_legal_move p c = some true ↔
      orthAdjacent p (firstIdx c p) (firstIdx '-' p) := by
  unfold is_legal_move
  rw [if_neg hc, strIndex_of_mem p '-' hb, strIndex_of_mem p c hm]
  simp only [Option.some_inj, Bool.or_eq_true, Bool.and_eq_true, beq_iff_eq]
  rw [natAbs_sub_one_iff, natAbs_sub_zero_iff, natAbs_sub_zero_iff,
    natAbs_sub_one_iff]
  unfold orthAdjacent rowOf colOf
  tauto

/-- The swap `puzzle_with_move` performs, described extensionally: the
blank's cell receives the tile symbol, the tile's first cell receives
the blank, everything else is untouched. -/
lemma pwm_spec (p : Puzzle) (c : Char) (hc : c ≠ '-') (hm : c ∈ p)
    (hb : '-' ∈ p) :
    ∃ r, puzzle_with_move p c = some r ∧ r.length = p.length ∧
      r.getD (firstIdx '-' p) ' ' = c ∧ r.getD (firstIdx c p) ' ' = '-' ∧
      ∀ j, j ≠ firstIdx '-' p → j ≠ firstIdx c p →
        r.getD j ' ' = p.getD j ' ' := by
  have hbl : firstIdx '-' p < p.length := firstIdx_lt_length '-' p hb
  have htl : firstIdx c p < p.length := firstIdx_lt_length c p hm
  have hbv : p.getD (firstIdx '-' p) ' ' = '-' := getD_firstIdx '-' p hb ' '
  have htv : p.getD (firstIdx c p) ' ' = c := getD_firstIdx c p hm ' '
  have hne : firstIdx '-' p ≠ firstIdx c p := by
    intro h
    rw [h] at hbv
    exact hc (htv.symm.trans hbv)
  refine ⟨(p.set (firstIdx '-' p) (p.getD (firstIdx c p) ' ')).set
      (firstIdx c p) (p.getD (firstIdx '-' p) ' '), ?_, ?_, ?_, ?_, ?_⟩
  · unfold puzzle_with_move
    rw [if_neg hc, strIndex_of_mem p '-' hb, strIndex_of_mem p c hm]
  · simp [List.length_set]
  · rw [getD_set_ne _ _ _ _ _ (Ne.symm hne), htv, getD_set_self _ _ _ _ hbl]
  · rw [getD_set_self _ _ _ _ (by simpa [List.length_set] using htl), hbv]
  · intro j hj1 hj2
    rw [getD_set_ne _ _ _ _ _ (fun h => hj2 h.symm),
      getD_set_ne _ _ _ _ _ (fun h => hj1 h.symm)]

/-! ### Claim theorems -/

/-- C6: invoking `puzzle_with_move` with the blank marker as the tile to
move is a no-op that returns the input state unchanged, for every puzzle
state. -/
theorem moveBlankIsNoOp (p : Puzzle) : puzzle_with_move p '-' = some p := by
  simp [puzzle_with_move]

/-- C8: for a valid state and a non-blank symbol absent from the state,
both `is_legal_move` and `puzzle_with_move` fail with an error (`none`,
embedding the uncaught `ValueError` of the tile lookup) rather than
returning a boolean or a new state. -/
theorem absentTileFails (p : Puzzle) (c : Char) (h : ValidPuzzle p)
    (hc : c ≠ '-') (hm : c ∉ p) :
    is_legal_move p c = none ∧ puzzle_with_move p c = none := by
  have hb := blank_mem_of_valid p h
  constructor
  · unfold is_legal_move
    rw [if_neg hc, strIndex_of_mem p '-' hb, strIndex_of_not_mem p c hm]
  · unfold puzzle_with_move
    rw [if_neg hc, strIndex_of_mem p '-' hb, strIndex_of_not_mem p c hm]

theorem absentTileFails_witness :
    ValidPuzzle ['1', '2', '3', '-'] ∧ ('5' : Char) ≠ '-' ∧
    '5' ∉ (['1', '2', '3', '-'] : Puzzle) ∧
    is_legal_move ['1', '2', '3', '-'] '5' = none ∧
    puzzle_with_move ['1', '2', '3', '-'] '5' = none :=
  ⟨by decide, by decide, by decide,
    (absentTileFails ['1', '2', '3', '-'] '5' (by decide) (by decide)
      (by decide)).1,
    (absentTileFails ['1', '2', '3', '-'] '5' (by decide) (by decide)
      (by decide)).2⟩

/-- C2: for a valid state and a symbol occurring in it, `is_legal_move`
is true iff the symbol is not the blank and its cell (at the symbol's
first index) is orthogonally adjacent to the blank's cell; and
`is_legal_move` answers `false` for the blank marker on every state. -/
theorem legalMoveCharacterization (p : Puzzle) (c : Char) (q : Puzzle)
    (h : ValidPuzzle p) (hm : c ∈ p) :
    (is_legal_move p c = some true ↔
      (c ≠ '-' ∧ orthAdjacent p (firstIdx c p) (firstIdx '-' p))) ∧
    is_legal_move q '-' = some false := by
  constructor
  · by_cases hc : c = '-'
    · subst hc
      constructor
      · intro hlm
        simp [is_legal_move] at hlm
      · rintro ⟨hne, _⟩
        exact absurd rfl hne
    · have hiff := legal_iff_adj p c (blank_mem_of_valid p h) hm hc
      constructor
      · intro hlm
        exact ⟨hc, hiff.mp hlm⟩
      · rintro ⟨_, hadj⟩
        exact hiff.mpr hadj
  · simp [is_legal_move]

theorem legalMoveCharacterization_witness :
    ValidPuzzle ['1', '2', '3', '4', '5', '6', '7', '8', '-'] ∧
    '8' ∈ (['1', '2', '3', '4', '5', '6', '7', '8', '-'] : Puzzle) ∧
    (is_legal_move ['1', '2', '3', '4', '5', '6', '7', '8', '-'] '8' = some true ↔
      (('8' : Char) ≠ '-' ∧
        orthAdjacent ['1', '2', '3', '4', '5', '6', '7', '8', '-']
          (firstIdx '8' ['1', '2', '3', '4', '5', '6', '7', '8', '-'])
          (firstIdx '-' ['1', '2', '3', '4', '5', '6', '7', '8', '-']))) ∧
    is_legal_move ['1', '2', '-', '3'] '-' = some false :=
  ⟨by decide, by decide,
    (legalMoveCharacterization ['1', '2', '3', '4', '5', '6', '7', '8', '-']
      '8' ['1', '2', '-', '3'] (by decide) (by decide)).1,
    (legalMoveCharacterization ['1', '2', '3', '4', '5', '6', '7', '8', '-']
      '8' ['1', '2', '-', '3'] (by decide) (by decide)).2⟩

/-- C3: for a valid state and a non-blank symbol present in it, the move
applicator succeeds and the result is identical to the input except that
the first position of the symbol and the position of the blank exchange
their contents; the length is unchanged and every other position `j`
keeps its symbol. -/
theorem moveSwapsTileAndBlank (p : Puzzle) (c : Char) (r : Puzzle) (j : Nat)
    (h : ValidPuzzle p) (hc : c ≠ '-') (hm : c ∈ p)
    (hr : puzzle_with_move p c = some r)
    (hj1 : j ≠ firstIdx '-' p) (hj2 : j ≠ firstIdx c p) :
    (puzzle_with_move p c).isSome = true ∧
    r.length = p.length ∧
    r.getD (firstIdx '-' p) ' ' = p.getD (firstIdx c p) ' ' ∧
    r.getD (firstIdx c p) ' ' = p.getD (firstIdx '-' p) ' ' ∧
    r.getD j ' ' = p.getD j ' ' := by
  have hb := blank_mem_of_valid p h
  obtain ⟨r0, h1, h2, h3, h4, h5⟩ := pwm_spec p c hc hm hb
  have hrr : r = r0 := by
    rw [h1] at hr
    exact (Option.some_inj.mp hr).symm
  subst hrr
  refine ⟨by rw [h1]; rfl, h2, ?_, ?_, h5 j hj1 hj2⟩
  · rw [h3, getD_firstIdx c p hm]
  · rw [h4, getD_firstIdx '-' p hb]

theorem moveSwapsTileAndBlank_witness :
    ValidPuzzle ['1', '2', '3', '-'] ∧
    puzzle_with_move ['1', '2', '3', '-'] '3' = some ['1', '2', '-', '3'] ∧
    (puzzle_with_move ['1', '2', '3', '-'] '3').isSome = true ∧
    (['1', '2', '-', '3'] : Puzzle).length = (['1', '2', '3', '-'] : Puzzle).length ∧
    (['1', '2', '-', '3'] : Puzzle).getD (firstIdx '-' ['1', '2', '3', '-']) ' '
      = (['1', '2', '3', '-'] : Puzzle).getD (firstIdx '3' ['1', '2', '3', '-']) ' ' ∧
    (['1', '2', '-', '3'] : Puzzle).getD (firstIdx '3' ['1', '2', '3', '-']) ' '
      = (['1', '2', '3', '-'] : Puzzle).getD (firstIdx '-' ['1', '2', '3', '-']) ' ' ∧
    (['1', '2', '-', '3'] : Puzzle).getD 0 ' ' = (['1', '2', '3', '-'] : Puzzle).getD 0 ' ' :=
  ⟨by decide, by decide,
    (moveSwapsTileAndBlank ['1', '2', '3', '-'] '3' ['1', '2', '-', '3'] 0
      (by decide) (by decide) (by decide) (by decide) (by decide) (by decide)).1,
    (moveSwapsTileAndBlank ['1', '2', '3', '-'] '3' ['1', '2', '-', '3'] 0
      (by decide) (by decide) (by decide) (by decide) (by decide) (by decide)).2.1,
    (moveSwapsTileAndBlank ['1', '2', '3', '-'] '3' ['1', '2', '-', '3'] 0
      (by decide) (by decide) (by decide) (by decide) (by decide) (by decide)).2.2.1,
    (moveSwapsTileAndBlank ['1', '2', '3', '-'] '3' ['1', '2', '-', '3'] 0
      (by decide) (by decide) (by decide) (by decide) (by decide) (by decide)).2.2.2.1,
    (moveSwapsTileAndBlank ['1', '2', '3', '-'] '3' ['1', '2', '-', '3'] 0
      (by decide) (by decide) (by decide) (by decide) (by decide) (by decide)).2.2.2.2⟩

/-- C10: `puzzle_with_move` swaps unconditionally: for a valid state and
a non-blank present symbol whose move is illegal (`is_legal_move` answers
`false`), the applicator still returns the swapped state — different from
the input, not an error — performing the same exchange as for a legal
move. -/
theorem moveAppliedWithoutLegalityCheck (p : Puzzle) (c : Char) (r : Puzzle)
    (m : Nat) (h : ValidPuzzle p) (hc : c ≠ '-') (hm : c ∈ p)
    (_hill : is_legal_move p c = some false)
    (hr : puzzle_with_move p c = some r)
    (hm1 : m ≠ firstIdx '-' p) (hm2 : m ≠ firstIdx c p) :
    (puzzle_with_move p c).isSome = true ∧ r ≠ p ∧
    r.getD (firstIdx '-' p) ' ' = c ∧ r.getD (firstIdx c p) ' ' = '-' ∧
    r.getD m ' ' = p.getD m ' ' := by
  have hb := blank_mem_of_valid p h
  obtain ⟨r0, h1, h2, h3, h4, h5⟩ := pwm_spec p c hc hm hb
  have hrr : r = r0 := by
    rw [h1] at hr
    exact (Option.some_inj.mp hr).symm
  subst hrr
  refine ⟨by rw [h1]; rfl, ?_, h3, h4, h5 m hm1 hm2⟩
  intro heq
  rw [heq] at h4
  exact hc ((getD_firstIdx c p hm ' ').symm.trans h4)

theorem moveAppliedWithoutLegalityCheck_witness :
    ValidPuzzle ['1', '2', '3', '4', '5', '6', '7', '8', '-'] ∧
    is_legal_move ['1', '2', '3', '4', '5', '6', '7', '8', '-'] '1' = some false ∧
    puzzle_with_move ['1', '2', '3', '4', '5', '6', '7', '8', '-'] '1'
      = some ['-', '2', '3', '4', '5', '6', '7', '8', '1'] ∧
    (['-', '2', '3', '4', '5', '6', '7', '8', '1'] : Puzzle)
      ≠ ['1', '2', '3', '4', '5', '6', '7', '8', '-'] ∧
    (['-', '2', '3', '4', '5', '6', '7', '8', '1'] : Puzzle).getD
      (firstIdx '-' ['1', '2', '3', '4', '5', '6', '7', '8', '-']) ' ' = '1' ∧
    (['-', '2', '3', '4', '5', '6', '7', '8', '1'] : Puzzle).getD
      (firstIdx '1' ['1', '2', '3', '4', '5', '6', '7', '8', '-']) ' ' = '-' ∧
    (['-', '2', '3', '4', '5', '6', '7', '8', '1'] : Puzzle).getD 3 ' '
      = (['1', '2', '3', '4', '5', '6', '7', '8', '-'] : Puzzle).getD 3 ' ' :=
  ⟨by decide, by decide, by decide,
    (moveAppliedWithoutLegalityCheck ['1', '2', '3', '4', '5', '6', '7', '8', '-']
      '1' ['-', '2', '3', '4', '5', '6', '7', '8', '1'] 3 (by decide) (by decide)
      (by decide) (by decide) (by decide) (by decide) (by decide)).2.1,
    (moveAppliedWithoutLegalityCheck ['1', '2', '3', '4', '5', '6', '7', '8', '-']
      '1' ['-', '2', '3', '4', '5', '6', '7', '8', '1'] 3 (by decide) (by decide)
      (by decide) (by decide) (by decide) (by decide) (by decide)).2.2.1,
    (moveAppliedWithoutLegalityCheck ['1', '2', '3', '4', '5', '6', '7', '8', '-']
      '1' ['-', '2', '3', '4', '5', '6', '7', '8', '1'] 3 (by decide) (by decide)
      (by decide) (by decide) (by decide) (by decide) (by decide)).2.2.2.1,
    (moveAppliedWithoutLegalityCheck ['1', '2', '3', '4', '5', '6', '7', '8', '-']
      '1' ['-', '2', '3', '4', '5', '6', '7', '8', '1'] 3 (by decide) (by decide)
      (by decide) (by decide) (by decide) (by decide) (by decide)).2.2.2.2⟩

lemma getD_append_left (l r : List Char) (d : Char) :
    ∀ i, i < l.length → (l ++ r).getD i d = l.getD i d := by
  induction l with
  | nil => intro i hi; simp at hi
  | cons x xs ih =>
    intro i hi
    cases i with
    | zero => rfl
    | succ m =>
      simp only [List.cons_append, List.getD_cons_succ]
      simp only [List.length_cons] at hi
      exact ih m (by omega)

/-- C1: for a valid state, `is_solved` is true iff the state equals the
code-point-sorted non-blank symbols followed by the blank, or the blank
followed by that sorted sequence; consequently a state whose single
blank sits at any interior position `i` is never solved. -/
theorem solvedCharacterization (p : Puzzle) (i : Nat) (_h : ValidPuzzle p) :
    (is_solved p = true ↔
      (p = sortChars (nonBlank p) ++ ['-'] ∨
        p = '-' :: sortChars (nonBlank p))) ∧
    (0 < i → i + 1 < p.length → p.getD i ' ' = '-' → is_solved p = false) := by
  have hiff : is_solved p = true ↔
      (p = sortChars (nonBlank p) ++ ['-'] ∨
        p = '-' :: sortChars (nonBlank p)) := by
    unfold is_solved
    simp only [List.dropLast_concat, Bool.or_eq_true, beq_iff_eq]
  refine ⟨hiff, ?_⟩
  intro h0 h1 hblank
  by_contra hns
  have hsol : is_solved p = true := by
    revert hns
    cases is_solved p <;> simp
  have hnotmem := blank_not_mem_sorted p
  rcases hiff.mp hsol with hs | hs
  · have hlen : p.length = (sortChars (nonBlank p)).length + 1 := by
      have := congrArg List.length hs
      simpa using this
    have hi : i < (sortChars (nonBlank p)).length := by omega
    rw [hs, getD_append_left _ _ _ i hi] at hblank
    exact hnotmem (hblank ▸ getD_mem (sortChars (nonBlank p)) ' ' i hi)
  · have hlen : p.length = (sortChars (nonBlank p)).length + 1 := by
      have := congrArg List.length hs
      simpa using this
    cases i with
    | zero => omega
    | succ m =>
      have hm : m < (sortChars (nonBlank p)).length := by omega
      rw [hs, List.getD_cons_succ] at hblank
      exact hnotmem (hblank ▸ getD_mem (sortChars (nonBlank p)) ' ' m hm)

theorem solvedCharacterization_witness :
    ValidPuzzle ['1', '2', '3', '4', '-', '5', '6', '7', '8'] ∧
    (is_solved ['1', '2', '3', '4', '-', '5', '6', '7', '8'] = true ↔
      ((['1', '2', '3', '4', '-', '5', '6', '7', '8'] : Puzzle)
          = sortChars (nonBlank ['1', '2', '3', '4', '-', '5', '6', '7', '8']) ++ ['-'] ∨
        (['1', '2', '3', '4', '-', '5', '6', '7', '8'] : Puzzle)
          = '-' :: sortChars (nonBlank ['1', '2', '3', '4', '-', '5', '6', '7', '8']))) ∧
    is_solved ['1', '2', '3', '4', '-', '5', '6', '7', '8'] = false :=
  ⟨by decide,
    (solvedCharacterization ['1', '2', '3', '4', '-', '5', '6', '7', '8'] 4
      (by decide)).1,
    (solvedCharacterization ['1', '2', '3', '4', '-', '5', '6', '7', '8'] 4
      (by decide)).2 (by decide) (by decide) (by decide)⟩

/-- C5, counterexample to the claim as stated: in the valid state
`BAAC-DEFG` the symbol `A` is duplicated; moving `A` (legally, via its
first occurrence) and then moving `A` again does not restore the
original state, because the second lookup resolves to the other copy. -/
theorem doubleMoveCounterexample :
    ValidPuzzle ['B', 'A', 'A', 'C', '-', 'D', 'E', 'F', 'G'] ∧
    is_legal_move ['B', 'A', 'A', 'C', '-', 'D', 'E', 'F', 'G'] 'A' = some true ∧
    puzzle_with_move ['B', 'A', 'A', 'C', '-', 'D', 'E', 'F', 'G'] 'A'
      = some ['B', '-', 'A', 'C', 'A', 'D', 'E', 'F', 'G'] ∧
    puzzle_with_move ['B', '-', 'A', 'C', 'A', 'D', 'E', 'F', 'G'] 'A'
      = some ['B', 'A', '-', 'C', 'A', 'D', 'E', 'F', 'G'] ∧
    (['B', 'A', '-', 'C', 'A', 'D', 'E', 'F', 'G'] : Puzzle)
      ≠ ['B', 'A', 'A', 'C', '-', 'D', 'E', 'F', 'G'] := by
  decide

/-- C5 as amended: for a valid state and a tile symbol occurring exactly
once whose move is legal, applying `puzzle_with_move` and then applying
it again with the same symbol returns the original state. -/
theorem doubleMoveRestoresState (p : Puzzle) (c : Char) (q : Puzzle)
    (h : ValidPuzzle p) (hm : c ∈ p) (h1 : countC c p = 1)
    (hl : is_legal_move p c = some true)
    (hq : puzzle_with_move p c = some q) :
    (puzzle_with_move p c).isSome = true ∧ puzzle_with_move q c = some p := by
  have hc : c ≠ '-' := by
    intro hceq
    subst hceq
    simp [is_legal_move] at hl
  have hb := blank_mem_of_valid p h
  obtain ⟨r, hr1, hr2, hr3, hr4, hr5⟩ := pwm_spec p c hc hm hb
  have hqr : r = q := by
    rw [hr1] at hq
    exact Option.some_inj.mp hq
  subst hqr
  have hbl : firstIdx '-' p < p.length := firstIdx_lt_length '-' p hb
  have htl : firstIdx c p < p.length := firstIdx_lt_length c p hm
  have hbv : p.getD (firstIdx '-' p) ' ' = '-' := getD_firstIdx '-' p hb ' '
  have htv : p.getD (firstIdx c p) ' ' = c := getD_firstIdx c p hm ' '
  have hcount : countC '-' p = 1 := h.2.1
  have hfb : firstIdx '-' r = firstIdx c p := by
    apply firstIdx_eq_of '-' r (firstIdx c p) (by rw [hr2]; exact htl) hr4
    intro j hj
    have hjne : j ≠ firstIdx c p := by omega
    by_cases hjb : j = firstIdx '-' p
    · rw [hjb, hr3]
      exact hc
    · rw [hr5 j hjb hjne]
      intro hcontra
      exact hjb (countC_one_unique '-' p hcount j (firstIdx '-' p)
        (by omega) hbl hcontra hbv)
  have hfc : firstIdx c r = firstIdx '-' p := by
    apply firstIdx_eq_of c r (firstIdx '-' p) (by rw [hr2]; exact hbl) hr3
    intro j hj
    have hjne : j ≠ firstIdx '-' p := by omega
    by_cases hjt : j = firstIdx c p
    · rw [hjt, hr4]
      exact fun hx => hc hx.symm
    · rw [hr5 j hjne hjt]
      intro hcontra
      exact hjt (countC_one_unique c p h1 j (firstIdx c p)
        (by omega) htl hcontra htv)
  have hbmr : '-' ∈ r := by
    rw [← hr4]
    exact getD_mem r ' ' (firstIdx c p) (by rw [hr2]; exact htl)
  have hcmr : c ∈ r := by
    rw [← hr3]
    exact getD_mem r ' ' (firstIdx '-' p) (by rw [hr2]; exact hbl)
  obtain ⟨s, hs1, hs2, hs3, hs4, hs5⟩ := pwm_spec r c hc hcmr hbmr
  rw [hfb] at hs3 hs5
  rw [hfc] at hs4 hs5
  have hsp : s = p := by
    apply list_ext_getD s p (by rw [hs2, hr2])
    intro j hj
    by_cases hjt : j = firstIdx c p
    · rw [hjt, hs3, htv]
    · by_cases hjb : j = firstIdx '-' p
      · rw [hjb, hs4, hbv]
      · rw [hs5 j hjt hjb, hr5 j hjb hjt]
  refine ⟨by rw [hr1]; rfl, by rw [hs1, hsp]⟩

theorem doubleMoveRestoresState_witness :
    ValidPuzzle ['1', '2', '3', '-'] ∧ '3' ∈ (['1', '2', '3', '-'] : Puzzle) ∧
    countC '3' ['1', '2', '3', '-'] = 1 ∧
    is_legal_move ['1', '2', '3', '-'] '3' = some true ∧
    puzzle_with_move ['1', '2', '3', '-'] '3' = some ['1', '2', '-', '3'] ∧
    puzzle_with_move ['1', '2', '-', '3'] '3' = some ['1', '2', '3', '-'] :=
  ⟨by decide, by decide, by decide, by decide, by decide,
    (doubleMoveRestoresState ['1', '2', '3', '-'] '3' ['1', '2', '-', '3']
      (by decide) (by decide) (by decide) (by decide) (by decide)).2⟩

/-! ### Helper lemmas: chunking, joining, filtering, interspersing -/

lemma range'_map_eq_ofFn (size : Nat) (f : Nat → List Char) :
    ∀ k s, (List.range' s k size).map f
      = List.ofFn (fun i : Fin k => f (s + i.val * size)) := by
  intro k
  induction k with
  | zero => intro s; rfl
  | succ m ih =>
    intro s
    rw [List.range'_succ, List.map_cons, ih (s + size), List.ofFn_succ]
    congr 1
    · simp
    · apply congrArg
      funext i
      congr 1
      simp only [Fin.val_succ]
      ring

lemma chunkCount (size k : Nat) (hs : 0 < size) (len : Nat)
    (hlen : len = k * size) : (len + size - 1) / size = k := by
  subst hlen
  have h1 : k * size + size - 1 = (size - 1) + k * size := by omega
  rw [h1, Nat.add_mul_div_right _ _ hs, Nat.div_eq_of_lt (by omega)]
  omega

lemma chunkList_eq_ofFn (size k : Nat) (hs : 0 < size) (l : List Char)
    (hl : l.length = k * size) :
    chunkList size l
      = List.ofFn (fun i : Fin k => (l.drop (i.val * size)).take size) := by
  unfold chunkList
  rw [chunkCount size k hs l.length hl, range'_map_eq_ofFn]
  apply congrArg
  funext i
  rw [Nat.zero_add]

lemma chunk_flatten (size : Nat) (_hs : 0 < size) :
    ∀ k (l : List Char), l.length = k * size →
      (List.ofFn (fun i : Fin k => (l.drop (i.val * size)).take size)).flatten
        = l := by
  intro k
  induction k with
  | zero =>
    intro l hl
    have : l = [] := List.eq_nil_of_length_eq_zero (by simpa using hl)
    subst this
    rfl
  | succ m ih =>
    intro l hl
    rw [List.ofFn_succ]
    simp only [List.flatten_cons, Fin.val_succ, Fin.val_zero, Nat.zero_mul,
      List.drop_zero]
    have hfn : (fun i : Fin m => (l.drop ((i.val + 1) * size)).take size)
        = (fun i : Fin m => (((l.drop size).drop (i.val * size)).take size)) := by
      funext i
      rw [List.drop_drop]
      congr 2
      ring
    rw [hfn, ih (l.drop size) (by
      rw [Nat.succ_mul] at hl
      simp only [List.length_drop]
      omega)]
    exact List.take_append_drop size l

lemma filter_joinStr (cs : List (List Char))
    (h : ∀ r ∈ cs, ∀ c ∈ r, c ≠ '\n') :
    (joinStr ['\n'] cs).filter (fun c => c != '\n') = cs.flatten := by
  induction cs with
  | nil => rfl
  | cons r rest ih =>
    cases rest with
    | nil =>
      simp only [joinStr, List.flatten_cons, List.flatten_nil, List.append_nil]
      apply List.filter_eq_self.mpr
      intro a ha
      have := h r (by simp) a ha
      simpa using this
    | cons r2 rest2 =>
      simp only [joinStr] at *
      rw [List.filter_append, List.filter_append]
      have h1 : r.filter (fun c => c != '\n') = r :=
        List.filter_eq_self.mpr (fun a ha => by simpa using h r (by simp) a ha)
      have h2 : (['\n'] : List Char).filter (fun c => c != '\n') = [] := rfl
      rw [h1, h2, ih (fun s hs c hc => h s (by simp [hs]) c hc)]
      simp

lemma interChars_append (xs ys : List Char) (hxs : xs ≠ []) (hys : ys ≠ []) :
    interChars ' ' (xs ++ ys) = interChars ' ' xs ++ ' ' :: interChars ' ' ys := by
  induction xs with
  | nil => exact absurd rfl hxs
  | cons x xt ih =>
    cases xt with
    | nil =>
      cases ys with
      | nil => exact absurd rfl hys
      | cons y yt => rfl
    | cons x2 xt2 =>
      simp only [List.cons_append, interChars, List.append_eq]
      have h3 := ih (by simp)
      simp only [List.cons_append] at h3
      rw [h3]

lemma spaced_cons (r : List Char) (hr : r ≠ []) :
    ' ' :: interChars ' ' r = spacedRow r := by
  induction r with
  | nil => exact absurd rfl hr
  | cons c ct ih =>
    cases ct with
    | nil => rfl
    | cons d dt =>
      have h2 := ih (by simp)
      simp only [interChars, spacedRow, List.map_cons, List.flatten_cons,
        List.cons_append, List.nil_append] at h2 ⊢
      rw [h2]

lemma joinStr_ne_nil (sep : List Char) (rows : List (List Char))
    (h1 : rows ≠ []) (h2 : ∀ r ∈ rows, r ≠ []) : joinStr sep rows ≠ [] := by
  cases rows with
  | nil => exact absurd rfl h1
  | cons r rest =>
    cases rest with
    | nil => exact h2 r (by simp)
    | cons r2 rest2 =>
      simp only [joinStr]
      intro hcontra
      rcases List.append_eq_nil.mp hcontra with ⟨hc1, _⟩
      rcases List.append_eq_nil.mp hc1 with ⟨hc3, _⟩
      exact h2 r (by simp) hc3

lemma spaced_join (rows : List (List Char)) (h1 : rows ≠ [])
    (h2 : ∀ r ∈ rows, r ≠ []) :
    ' ' :: interChars ' ' (joinStr ['\n'] rows)
      = joinStr [' ', '\n'] (rows.map spacedRow) := by
  induction rows with
  | nil => exact absurd rfl h1
  | cons r rest ih =>
    cases rest with
    | nil =>
      simp only [joinStr, List.map_cons, List.map_nil]
      exact spaced_cons r (h2 r (by simp))
    | cons r2 rest2 =>
      have hrne : r ≠ [] := h2 r (by simp)
      have hmne : joinStr ['\n'] (r2 :: rest2) ≠ [] :=
        joinStr_ne_nil ['\n'] (r2 :: rest2) (by simp)
          (fun x hx => h2 x (by simp [hx]))
      have hih := ih (by simp) (fun x hx => h2 x (by simp [hx]))
      simp only [List.map_cons] at hih
      obtain ⟨mh, mt, hm⟩ : ∃ mh mt, joinStr ['\n'] (r2 :: rest2) = mh :: mt := by
        cases hmm : joinStr ['\n'] (r2 :: rest2) with
        | nil => exact absurd hmm hmne
        | cons a b => exact ⟨a, b, rfl⟩
      simp only [joinStr, List.map_cons]
      rw [List.append_assoc, List.singleton_append,
        interChars_append r ('\n' :: joinStr ['\n'] (r2 :: rest2)) hrne (by simp),
        hm]
      simp only [interChars]
      rw [← hm, ← spaced_cons r hrne, ← hih]
      simp

/-- C4: for a valid state of size `N * N`, `rows_from_puzzle` is exactly
the `N` consecutive `N`-symbol chunks of the state, in order, joined by
single newlines with no trailing separator; and deleting the newline
characters from the output reproduces the original state. -/
theorem rowsFormatting (p : Puzzle) (N : Nat) (h : ValidPuzzle p)
    (hN : p.length = N * N) :
    rows_from_puzzle p
      = joinStr ['\n']
          (List.ofFn (fun i : Fin N => (p.drop (i.val * N)).take N)) ∧
    (rows_from_puzzle p).filter (fun c => c != '\n') = p := by
  obtain ⟨N2, hN25, hlen, hbs⟩ := valid_board p h
  have hNN : N2 = N := by
    have heq : N * N = N2 * N2 := by omega
    exact (Nat.mul_self_inj.mp heq).symm
  subst hNN
  have hNpos : 0 < N2 := by omega
  have hchunk := chunkList_eq_ofFn N2 N2 hNpos p hlen
  have hfh : ∀ r ∈ List.ofFn (fun i : Fin N2 => (p.drop (i.val * N2)).take N2),
      ∀ c ∈ r, c ≠ '\n' := by
    intro r hr c hc
    rw [List.mem_ofFn] at hr
    obtain ⟨i, hi⟩ := hr
    rw [← hi] at hc
    have hcp : c ∈ p :=
      List.drop_subset (i.val * N2) p (List.take_subset N2 _ hc)
    have hpc := h.2.2 c hcp
    intro hceq
    subst hceq
    revert hpc
    decide
  constructor
  · unfold rows_from_puzzle
    rw [hbs, hchunk]
  · unfold rows_from_puzzle
    rw [hbs, hchunk, filter_joinStr _ hfh, chunk_flatten N2 hNpos N2 p hlen]

theorem rowsFormatting_witness :
    ValidPuzzle ['1', '2', '3', '4', '5', '6', '7', '8', '-'] ∧
    (['1', '2', '3', '4', '5', '6', '7', '8', '-'] : Puzzle).length = 3 * 3 ∧
    rows_from_puzzle ['1', '2', '3', '4', '5', '6', '7', '8', '-']
      = joinStr ['\n']
          (List.ofFn (fun i : Fin 3 =>
            ((['1', '2', '3', '4', '5', '6', '7', '8', '-'] : Puzzle).drop
              (i.val * 3)).take 3)) ∧
    (rows_from_puzzle ['1', '2', '3', '4', '5', '6', '7', '8', '-']).filter
      (fun c => c != '\n') = ['1', '2', '3', '4', '5', '6', '7', '8', '-'] :=
  ⟨by decide, by decide,
    (rowsFormatting ['1', '2', '3', '4', '5', '6', '7', '8', '-'] 3
      (by decide) (by decide)).1,
    (rowsFormatting ['1', '2', '3', '4', '5', '6', '7', '8', '-'] 3
      (by decide) (by decide)).2⟩

/-- C7, counterexample to the claim as stated: on the valid state `123-`
the actual rendering has exactly one leading space and a trailing space
on the first line, not the extra leading space the spec describes, so
`space_puzzle` differs from the spec's formula. -/
theorem spacedRenderingCounterexample :
    ValidPuzzle ['1', '2', '3', '-'] ∧
    space_puzzle ['1', '2', '3', '-'] ≠ spec_spaced ['1', '2', '3', '-'] := by
  decide

/-- C7 as amended: for a valid state, `space_puzzle` renders each row
with a single space before every symbol and joins the rows with a space
followed by a newline (so every line but the last carries a trailing
space), with no second leading space on the first line. -/
theorem spacedRenderingFormula (p : Puzzle) (h : ValidPuzzle p) :
    space_puzzle p = amendedSpaced p := by
  obtain ⟨N, hN25, hlen, hbs⟩ := valid_board p h
  have hNpos : 0 < N := by omega
  unfold space_puzzle amendedSpaced rows_from_puzzle
  rw [hbs, chunkList_eq_ofFn N N hNpos p hlen]
  apply spaced_join
  · intro hcontra
    have := congrArg List.length hcontra
    simp only [List.length_ofFn, List.length_nil] at this
    omega
  · intro r hr
    rw [List.mem_ofFn] at hr
    obtain ⟨i, hi⟩ := hr
    intro hcontra
    rw [← hi] at hcontra
    have hle : i.val * N + N ≤ N * N := by
      have h1 : i.val + 1 ≤ N := i.isLt
      calc i.val * N + N = (i.val + 1) * N := by ring
        _ ≤ N * N := Nat.mul_le_mul_right N h1
    have := congrArg List.length hcontra
    simp only [List.length_take, List.length_drop, hlen, List.length_nil] at this
    omega

theorem spacedRenderingFormula_witness :
    ValidPuzzle ['1', '2', '3', '-'] ∧
    space_puzzle ['1', '2', '3', '-'] = amendedSpaced ['1', '2', '3', '-'] :=
  ⟨by decide, spacedRenderingFormula ['1', '2', '3', '-'] (by decide)⟩

/-- C9: when the named symbol occurs more than once, both functions
resolve it to its leftmost occurrence: `firstIdx c p` holds `c` while
every earlier position does not, legality is judged by the adjacency of
that leftmost occurrence to the blank, and the applicator exchanges the
blank with that leftmost occurrence, leaving every other position — in
particular every other copy of the symbol — unchanged. -/
theorem duplicateSymbolUsesLeftmost (p : Puzzle) (c : Char) (r : Puzzle)
    (j m : Nat) (h : ValidPuzzle p) (hdup : 2 ≤ countC c p) (hc : c ≠ '-')
    (hr : puzzle_with_move p c = some r) (hjlt : j < firstIdx c p)
    (hm1 : m ≠ firstIdx '-' p) (hm2 : m ≠ firstIdx c p) :
    p.getD (firstIdx c p) ' ' = c ∧ p.getD j ' ' ≠ c ∧
    (is_legal_move p c = some true ↔
      orthAdjacent p (firstIdx c p) (firstIdx '-' p)) ∧
    r.getD (firstIdx '-' p) ' ' = c ∧ r.getD (firstIdx c p) ' ' = '-' ∧
    r.getD m ' ' = p.getD m ' ' ∧
    (p.getD m ' ' = c → r.getD m ' ' = c) := by
  have hm : c ∈ p := (countC_pos_iff c p).mp (by omega)
  have hb := blank_mem_of_valid p h
  have htl := firstIdx_lt_length c p hm
  obtain ⟨r0, h1, h2, h3, h4, h5⟩ := pwm_spec p c hc hm hb
  have hrr : r0 = r := by
    rw [h1] at hr
    exact Option.some_inj.mp hr
  subst hrr
  exact ⟨getD_firstIdx c p hm ' ',
    getD_ne_of_lt_firstIdx c p ' ' j hjlt (by omega),
    legal_iff_adj p c hb hm hc, h3, h4, h5 m hm1 hm2,
    fun hmc => by rw [h5 m hm1 hm2]; exact hmc⟩

theorem duplicateSymbolUsesLeftmost_witness :
    ValidPuzzle ['B', 'A', 'A', 'C', '-', 'D', 'E', 'F', 'G'] ∧
    2 ≤ countC 'A' ['B', 'A', 'A', 'C', '-', 'D', 'E', 'F', 'G'] ∧
    (['B', 'A', 'A', 'C', '-', 'D', 'E', 'F', 'G'] : Puzzle).getD
      (firstIdx 'A' ['B', 'A', 'A', 'C', '-', 'D', 'E', 'F', 'G']) ' ' = 'A' ∧
    (['B', 'A', 'A', 'C', '-', 'D', 'E', 'F', 'G'] : Puzzle).getD 0 ' ' ≠ 'A' ∧
    (is_legal_move ['B', 'A', 'A', 'C', '-', 'D', 'E', 'F', 'G'] 'A' = some true ↔
      orthAdjacent ['B', 'A', 'A', 'C', '-', 'D', 'E', 'F', 'G']
        (firstIdx 'A' ['B', 'A', 'A', 'C', '-', 'D', 'E', 'F', 'G'])
        (firstIdx '-' ['B', 'A', 'A', 'C', '-', 'D', 'E', 'F', 'G'])) ∧
    (['B', '-', 'A', 'C', 'A', 'D', 'E', 'F', 'G'] : Puzzle).getD
      (firstIdx '-' ['B', 'A', 'A', 'C', '-', 'D', 'E', 'F', 'G']) ' ' = 'A' ∧
    (['B', '-', 'A', 'C', 'A', 'D', 'E', 'F', 'G'] : Puzzle).getD
      (firstIdx 'A' ['B', 'A', 'A', 'C', '-', 'D', 'E', 'F', 'G']) ' ' = '-' ∧
    (['B', '-', 'A', 'C', 'A', 'D', 'E', 'F', 'G'] : Puzzle).getD 2 ' '
      = (['B', 'A', 'A', 'C', '-', 'D', 'E', 'F', 'G'] : Puzzle).getD 2 ' ' ∧
    (['B', '-', 'A', 'C', 'A', 'D', 'E', 'F', 'G'] : Puzzle).getD 2 ' ' = 'A' :=
  ⟨by decide, by decide,
    (duplicateSymbolUsesLeftmost ['B', 'A', 'A', 'C', '-', 'D', 'E', 'F', 'G']
      'A' ['B', '-', 'A', 'C', 'A', 'D', 'E', 'F', 'G'] 0 2 (by decide)
      (by decide) (by decide) (by decide) (by decide) (by decide) (by decide)).1,
    (duplicateSymbolUsesLeftmost ['B', 'A', 'A', 'C', '-', 'D', 'E', 'F', 'G']
      'A' ['B', '-', 'A', 'C', 'A', 'D', 'E', 'F', 'G'] 0 2 (by decide)
      (by decide) (by decide) (by decide) (by decide) (by decide) (by decide)).2.1,
    (duplicateSymbolUsesLeftmost ['B', 'A', 'A', 'C', '-', 'D', 'E', 'F', 'G']
      'A' ['B', '-', 'A', 'C', 'A', 'D', 'E', 'F', 'G'] 0 2 (by decide)
      (by decide) (by decide) (by decide) (by decide) (by decide) (by decide)).2.2.1,
    (duplicateSymbolUsesLeftmost ['B', 'A', 'A', 'C', '-', 'D', 'E', 'F', 'G']
      'A' ['B', '-', 'A', 'C', 'A', 'D', 'E', 'F', 'G'] 0 2 (by decide)
      (by decide) (by decide) (by decide) (by decide) (by decide) (by decide)).2.2.2.1,
    (duplicateSymbolUsesLeftmost ['B', 'A', 'A', 'C', '-', 'D', 'E', 'F', 'G']
      'A' ['B', '-', 'A', 'C', 'A', 'D', 'E', 'F', 'G'] 0 2 (by decide)
      (by decide) (by decide) (by decide) (by decide) (by decide) (by decide)).2.2.2.2.1,
    (duplicateSymbolUsesLeftmost ['B', 'A', 'A', 'C', '-', 'D', 'E', 'F', 'G']
      'A' ['B', '-', 'A', 'C', 'A', 'D', 'E', 'F', 'G'] 0 2 (by decide)
      (by decide) (by decide) (by decide) (by decide) (by decide) (by decide)).2.2.2.2.2.1,
    (duplicateSymbolUsesLeftmost ['B', 'A', 'A', 'C', '-', 'D', 'E', 'F', 'G']
      'A' ['B', '-', 'A', 'C', 'A', 'D', 'E', 'F', 'G'] 0 2 (by decide)
      (by decide) (by decide) (by decide) (by decide) (by decide)
      (by decide)).2.2.2.2.2.2 (by decide)⟩

end SlidingPuzzle
